import Mathlib

/-!
Verification of the `ttest` hierarchical test-composition harness
(`src/ttest.h`, namespace `ttest`).

The C++ code is shallowly embedded: `error_log` becomes a structure holding
its qualifying name and the ordered message list; the mutating member
functions become pure functions returning the updated log.  A test
procedure (`std::function<void(error_log&)>`) interacts with its log only
through the public interface (`append`, the `append()` overload,
`append_if`, `incorporate`), so procedures are embedded as lists of such
calls (`log_op`).  The `test_suite` hierarchy (`simple_test` /
`compound_test`) becomes an inductive tree carrying the log of each node.
A second model adds fault-raising procedures (`Except`), and a third keeps
nodes in an explicit heap addressed by ids so that one child handle can be
shared by two groups, as `shared_ptr` allows.
-/

namespace Ttest

/-- Model of `ttest::error_log`: the qualifying name fixed at construction and the
append-only vector of messages (`qualifying_name_`, `log_`). -/
structure error_log where
  qualifying_name : String
  log : List String
deriving DecidableEq, Repr

/-- The constructor `error_log(message_type name)`: name stored, empty log. -/
def error_log.mk0 (name : String) : error_log :=
  ⟨name, []⟩

/-- Member `size_t size() const {return log_.size();}`. -/
def error_log.size (l : error_log) : Nat :=
  l.log.length

/-- Member `void error_log::append(const message_type& msg)`: pushes
`qualifying_name_` when `msg` is empty, otherwise
`qualifying_name_ + "::" + msg`. -/
def error_log.append (l : error_log) (msg : String) : error_log :=
  if msg.isEmpty then
    { l with log := l.log ++ [l.qualifying_name] }
  else
    { l with log := l.log ++ [l.qualifying_name ++ "::" ++ msg] }

/-- Overload `void append() {append({});}` — the no-argument overload appends the
default-constructed (empty) message. -/
def error_log.append0 (l : error_log) : error_log :=
  l.append ""

/-- Member `void append_if(const message_type& msg, bool fail) {if (fail) append(msg);}`. -/
def error_log.append_if (l : error_log) (msg : String) (fail : Bool) : error_log :=
  if fail then l.append msg else l

/-- Overload `void append_if(bool fail) {if (fail) append();}`. -/
def error_log.append_if0 (l : error_log) (fail : Bool) : error_log :=
  if fail then l.append0 else l

/-- Member `void error_log::incorporate(const error_log& sublog)`: appends each
message of `sublog.log_` into this log, in order, via `append`.  `sublog`
is taken by `const` reference, so only the receiver changes. -/
def error_log.incorporate (l : error_log) (sublog : error_log) : error_log :=
  sublog.log.foldl (fun acc msg => acc.append msg) l

/-- Member `void error_log::report(ostream& os) const` writes each stored message
followed by a newline, in insertion order; modelled as the produced text. -/
def error_log.report (l : error_log) : String :=
  String.join (l.log.map (fun msg => msg ++ "\n"))

/-- One call a test procedure can make on the `error_log&` it receives:
the four `append`/`append_if` overloads and `incorporate`. -/
inductive log_op where
  | append (msg : String)
  | append0
  | append_if (msg : String) (fail : Bool)
  | append_if0 (fail : Bool)
  | incorporate (other : error_log)
deriving DecidableEq, Repr

/-- Apply one interface call to a log. -/
def apply_op (l : error_log) : log_op → error_log
  | .append msg => l.append msg
  | .append0 => l.append0
  | .append_if msg fail => l.append_if msg fail
  | .append_if0 fail => l.append_if0 fail
  | .incorporate other => l.incorporate other

/-- Run a test procedure, i.e. a sequence of interface calls, on a log. -/
def run_ops (l : error_log) (ops : List log_op) : error_log :=
  ops.foldl apply_op l

/-- The message `append` actually records for a given qualifying name. -/
def recorded (q msg : String) : String :=
  if msg.isEmpty then q else q ++ "::" ++ msg

/-- Messages one interface call appends (in order), given the qualifying
name of the log.  Independent of the current contents of the log. -/
def op_msgs (q : String) : log_op → List String
  | .append msg => [recorded q msg]
  | .append0 => [q]
  | .append_if msg fail => if fail then [recorded q msg] else []
  | .append_if0 fail => if fail then [q] else []
  | .incorporate other => other.log.map (recorded q)

/-- The full trace a procedure appends, given the qualifying name. -/
def ops_msgs (q : String) (ops : List log_op) : List String :=
  (ops.map (op_msgs q)).flatten

/-- The number of messages one call appends: fixed by the call itself,
independent of the state of the log. -/
def op_count : log_op → Nat
  | .append _ => 1
  | .append0 => 1
  | .append_if _ fail => if fail then 1 else 0
  | .append_if0 fail => if fail then 1 else 0
  | .incorporate other => other.size

/-- The number of messages a whole procedure appends per run. -/
def ops_count (ops : List log_op) : Nat :=
  (ops.map op_count).sum

/- ### The test-suite hierarchy

`test_suite` with its two derived classes `simple_test` (a name plus a
test procedure) and `compound_test` (a name plus the owned vector of
subtests) becomes one inductive tree.  Each node carries its own
`error_log` (`errors_`), so the tree is also the mutable state that
`run_test` transforms.  This value-semantic tree captures the exclusive
ownership in the data model of the spec; aliasing of children through shared
handles is modelled separately below (`heap` / `run_node`). -/
inductive test_suite where
  | simple_test (errors : error_log) (test : List log_op)
  | compound_test (errors : error_log) (components : List test_suite)
deriving Repr

/-- Accessor `error_log& errors()` / the `errors_` member of a node. -/
def test_suite.errors : test_suite → error_log
  | .simple_test e _ => e
  | .compound_test e _ => e

/-- Member `std::size_t error_count() const {return errors_.size();}`. -/
def test_suite.error_count (t : test_suite) : Nat :=
  t.errors.size

/-- Member `void report(ostream& os) const {errors_.report(os);}`. -/
def test_suite.report (t : test_suite) : String :=
  t.errors.report

mutual
/-- Member `void run_test() {do_test();}` with the two overrides of `do_test`:
`simple_test` runs the stored procedure on its own log
(`test_(errors())`); `compound_test` calls
`collect_errors(components)`. -/
def run_test : test_suite → test_suite
  | .simple_test e test => .simple_test (run_ops e test) test
  | .compound_test e components =>
      let p := collect_errors_list e components
      .compound_test p.1 p.2

/-- Loop of `test_suite::collect_errors`: for each subtest in order, run
it, then incorporate its log into the log of this node.  Returns the updated own log and
the updated subtests. -/
def collect_errors_list :
    error_log → List test_suite → error_log × List test_suite
  | e, [] => (e, [])
  | e, t :: ts =>
      let t' := run_test t
      let p := collect_errors_list (e.incorporate t'.errors) ts
      (p.1, t' :: p.2)
end

/-- Trees as built by the `create_test` factory overloads before any run:
the log of every node is freshly constructed (name only, no messages). -/
inductive test_spec where
  | leaf (name : String) (test : List log_op)
  | group (name : String) (children : List test_spec)

mutual
/-- Factory `create_test`: build the freshly-constructed tree of a
`test_spec` (the `error_log` of each node initialized with its name and
an empty list). -/
def create_test : test_spec → test_suite
  | .leaf name test => .simple_test (error_log.mk0 name) test
  | .group name children =>
      .compound_test (error_log.mk0 name) (create_test_list children)

/-- Build each child in declaration order. -/
def create_test_list : List test_spec → List test_suite
  | [] => []
  | c :: cs => create_test c :: create_test_list cs
end

mutual
/-- Sum, over the descendant leaves of a spec, of the number of messages
the procedure of each leaf appends in one run. -/
def total_leaf_count : test_spec → Nat
  | .leaf _ test => ops_count test
  | .group _ children => total_leaf_count_list children

/-- Sum of `total_leaf_count` over a list of children. -/
def total_leaf_count_list : List test_spec → Nat
  | [] => 0
  | c :: cs => total_leaf_count c + total_leaf_count_list cs
end

/- ### Fault-raising procedures

The harness has no `try`/`catch`: `simple_test::do_test` calls the stored
`std::function` directly, `run_test` calls `do_test` directly, and
`collect_errors` calls `run_test` directly inside its `for_each`.  A
procedure step is therefore either one of the log calls above or a raised
fault, and a fault aborts the run, carrying its value unchanged. -/
inductive elog_op where
  | op (o : log_op)
  | throwFault (e : String)
deriving DecidableEq, Repr

/-- Run a possibly-faulting procedure on a log: log calls accumulate,
a fault aborts immediately with its value. -/
def run_eops (l : error_log) : List elog_op → Except String error_log
  | [] => .ok l
  | .op o :: rest => run_eops (apply_op l o) rest
  | .throwFault e :: _ => .error e

/-- The tree with possibly-faulting leaf procedures. -/
inductive etest_suite where
  | simple_test (errors : error_log) (test : List elog_op)
  | compound_test (errors : error_log) (components : List etest_suite)

/-- The `errors_` member of a node of the faulting model. -/
def etest_suite.errors : etest_suite → error_log
  | .simple_test e _ => e
  | .compound_test e _ => e

mutual
/-- Variant of `run_test` when leaf procedures may raise: there is no handler
anywhere in the harness, so the first fault propagates out of every
enclosing `collect_errors` loop and `run_test` call unchanged. -/
def erun_test : etest_suite → Except String etest_suite
  | .simple_test e test =>
      match run_eops e test with
      | .ok e' => .ok (.simple_test e' test)
      | .error f => .error f
  | .compound_test e components =>
      match ecollect_errors_list e components with
      | .ok p => .ok (.compound_test p.1 p.2)
      | .error f => .error f

/-- Variant of `collect_errors` when children may fault: children run in order; a
faulting child aborts the loop before its log is incorporated, and the
fault escapes unchanged. -/
def ecollect_errors_list :
    error_log → List etest_suite →
      Except String (error_log × List etest_suite)
  | e, [] => .ok (e, [])
  | e, t :: ts =>
      match erun_test t with
      | .error f => .error f
      | .ok t' =>
          match ecollect_errors_list (e.incorporate t'.errors) ts with
          | .ok p => .ok (p.1, t' :: p.2)
          | .error f => .error f
end

/- ### Shared child handles

`compound_test` stores `shared_ptr<test_suite>` handles, so the same child
object can sit inside two different groups; both then mutate one shared
log.  The heap model makes the sharing explicit: nodes live in a fixed
list indexed by id, node shapes are static, and the mutable state is the
list of per-node logs.  `run_node` is `run_test` on this representation
(fuel bounds the recursion depth; every tree built by `create_test` is
acyclic, so enough fuel always exists). -/
inductive hnode where
  | simple (test : List log_op)
  | compound (children : List Nat)
deriving Repr

/-- A dummy log, returned only for out-of-range ids. -/
def dummy_log : error_log := ⟨"", []⟩

/-- The log of node `i` in the state. -/
def log_at (logs : List error_log) (i : Nat) : error_log :=
  logs.getD i dummy_log

/-- Variant of `run_test` on the heap representation: a simple node runs its
procedure on its own log; a compound node runs and then incorporates each
child in declared order (the `for_each` of `collect_errors`), children
resolved through their shared ids. -/
def run_node (heap : List hnode) : Nat → Nat → List error_log → List error_log
  | 0, _, logs => logs
  | fuel + 1, i, logs =>
      match heap.getD i (.compound []) with
      | .simple test => logs.set i (run_ops (log_at logs i) test)
      | .compound children =>
          children.foldl (fun acc c =>
            let acc' := run_node heap fuel c acc
            acc'.set i ((log_at acc' i).incorporate (log_at acc' c))) logs

/- ## Theorems -/

/- ### Basic lemmas about the log operations -/

theorem append_log (l : error_log) (msg : String) :
    (l.append msg).log = l.log ++ [recorded l.qualifying_name msg] := by
  unfold error_log.append recorded
  split <;> rfl

theorem append_name (l : error_log) (msg : String) :
    (l.append msg).qualifying_name = l.qualifying_name := by
  unfold error_log.append
  split <;> rfl

theorem incorporate_log (l sub : error_log) :
    (l.incorporate sub).log =
      l.log ++ sub.log.map (recorded l.qualifying_name) := by
  unfold error_log.incorporate
  induction sub.log generalizing l with
  | nil => simp
  | cons m ms ih =>
      simp only [List.foldl_cons, List.map_cons]
      rw [ih, append_log, append_name, List.append_assoc]
      rfl

theorem incorporate_name (l sub : error_log) :
    (l.incorporate sub).qualifying_name = l.qualifying_name := by
  unfold error_log.incorporate
  induction sub.log generalizing l with
  | nil => rfl
  | cons m ms ih => rw [List.foldl_cons, ih, append_name]

theorem incorporate_size (l sub : error_log) :
    (l.incorporate sub).size = l.size + sub.size := by
  unfold error_log.size
  rw [incorporate_log]
  simp

theorem apply_op_log (l : error_log) (op : log_op) :
    (apply_op l op).log = l.log ++ op_msgs l.qualifying_name op := by
  cases op with
  | append msg => exact append_log l msg
  | append0 =>
      show (l.append "").log = _
      rw [append_log]
      rfl
  | append_if msg fail =>
      cases fail with
      | false => simp [apply_op, error_log.append_if, op_msgs]
      | true =>
          show (l.append msg).log = _
          rw [append_log]
          rfl
  | append_if0 fail =>
      cases fail with
      | false => simp [apply_op, error_log.append_if0, op_msgs]
      | true =>
          show (l.append "").log = _
          rw [append_log]
          rfl
  | incorporate other => exact incorporate_log l other

theorem apply_op_name (l : error_log) (op : log_op) :
    (apply_op l op).qualifying_name = l.qualifying_name := by
  cases op with
  | append msg => exact append_name l msg
  | append0 => exact append_name l ""
  | append_if msg fail =>
      cases fail with
      | false => rfl
      | true => exact append_name l msg
  | append_if0 fail =>
      cases fail with
      | false => rfl
      | true => exact append_name l ""
  | incorporate other => exact incorporate_name l other

theorem run_ops_log (l : error_log) (ops : List log_op) :
    (run_ops l ops).log = l.log ++ ops_msgs l.qualifying_name ops := by
  unfold run_ops ops_msgs
  induction ops generalizing l with
  | nil => simp
  | cons op ops ih =>
      simp only [List.foldl_cons, List.map_cons, List.flatten_cons]
      rw [ih, apply_op_log, apply_op_name, List.append_assoc]

theorem run_ops_name (l : error_log) (ops : List log_op) :
    (run_ops l ops).qualifying_name = l.qualifying_name := by
  unfold run_ops
  induction ops generalizing l with
  | nil => rfl
  | cons op ops ih => rw [List.foldl_cons, ih, apply_op_name]

theorem op_msgs_length (q : String) (op : log_op) :
    (op_msgs q op).length = op_count op := by
  cases op with
  | append msg => rfl
  | append0 => rfl
  | append_if msg fail => cases fail <;> rfl
  | append_if0 fail => cases fail <;> rfl
  | incorporate other => simp [op_msgs, op_count, error_log.size]

theorem ops_msgs_length (q : String) (ops : List log_op) :
    (ops_msgs q ops).length = ops_count ops := by
  unfold ops_msgs ops_count
  induction ops with
  | nil => rfl
  | cons op ops ih =>
      simp only [List.map_cons, List.flatten_cons, List.length_append,
        List.sum_cons, ih, op_msgs_length]

theorem run_ops_size (l : error_log) (ops : List log_op) :
    (run_ops l ops).size = l.size + ops_count ops := by
  unfold error_log.size
  rw [run_ops_log]
  simp [ops_msgs_length]

theorem error_log_eq_mk (p : error_log) (q : String) (lg : List String)
    (hq : p.qualifying_name = q) (hl : p.log = lg) : p = ⟨q, lg⟩ := by
  cases p
  cases hq
  cases hl
  rfl

/- ### Characterization of `collect_errors` -/

theorem collect_errors_list_snd (e : error_log) (ts : List test_suite) :
    (collect_errors_list e ts).2 = ts.map run_test := by
  induction ts generalizing e with
  | nil => rfl
  | cons t ts ih =>
      rw [collect_errors_list, List.map_cons]
      exact congrArg _ (ih _)

theorem collect_errors_list_fst_name (e : error_log) (ts : List test_suite) :
    (collect_errors_list e ts).1.qualifying_name = e.qualifying_name := by
  induction ts generalizing e with
  | nil => rfl
  | cons t ts ih =>
      rw [collect_errors_list]
      show (collect_errors_list _ ts).1.qualifying_name = _
      rw [ih, incorporate_name]

theorem collect_errors_list_fst_log (e : error_log) (ts : List test_suite) :
    (collect_errors_list e ts).1.log =
      e.log ++ (ts.map fun t =>
        (run_test t).errors.log.map (recorded e.qualifying_name)).flatten := by
  induction ts generalizing e with
  | nil => simp [collect_errors_list]
  | cons t ts ih =>
      rw [collect_errors_list]
      show (collect_errors_list _ ts).1.log = _
      rw [ih, incorporate_log, incorporate_name, List.map_cons,
        List.flatten_cons, List.append_assoc]

/- ### Claims about the log operations -/

/-- Claim C2: `append(detail)` records exactly `qualifying_name` when
`detail` is empty — and the no-argument overload `append()` is the call
`append("")`, so "absent" is the empty case — and records exactly
`qualifying_name + "::" + detail` otherwise; it always succeeds (the
embedding is total) and grows the log by exactly one message. -/
theorem C2_append_spec (l : error_log) (msg : String) :
    (l.append msg).log = l.log ++
        [if msg.isEmpty then l.qualifying_name
         else l.qualifying_name ++ "::" ++ msg]
      ∧ (l.append msg).size = l.size + 1
      ∧ l.append0 = l.append "" := by
  refine ⟨append_log l msg, ?_, rfl⟩
  unfold error_log.size
  rw [append_log]
  simp

/-- Claim C1, counterexample: the claim says every message absorbed by
`incorporate` becomes `self.qualified_name + "::" + originalMessage`.
A log constructed with the empty name whose procedure called the
no-argument `append()` holds the empty message; incorporating it appends
`self.qualified_name` alone (the `msg.empty()` branch of `append`), not
`self.qualified_name + "::" + ""`. -/
theorem C1_counterexample :
    ((error_log.mk0 "a").incorporate
        (run_ops (error_log.mk0 "") [.append0])).log = ["a"]
      ∧ (run_ops (error_log.mk0 "") [.append0]).log = [""]
      ∧ ("a" : String) ≠ "a" ++ "::" ++ "" := by
  refine ⟨rfl, rfl, by decide⟩

/-- Claim C1, amended: `incorporate(other)` appends exactly `other.size()`
new messages to `self`, in the original order of `other`, where an
original message `m` becomes `self.qualified_name + "::" + m` when `m` is
non-empty and exactly `self.qualified_name` when `m` is empty; `other` is
passed by `const` reference and unchanged (the embedding returns only the
updated receiver), and the qualifying name of `self` is unchanged. -/
theorem C1_incorporate_spec (self other : error_log) :
    (self.incorporate other).log =
        self.log ++ other.log.map (fun m =>
          if m.isEmpty then self.qualifying_name
          else self.qualifying_name ++ "::" ++ m)
      ∧ (self.incorporate other).size = self.size + other.size
      ∧ (self.incorporate other).qualifying_name = self.qualifying_name := by
  exact ⟨incorporate_log self other, incorporate_size self other,
    incorporate_name self other⟩

/-- Claim C7, counterexample: the claim says `append_if(msg, true)` adds a
message equal to `qualified_name + "::" + msg` for every string `msg`;
for the empty `msg` the underlying `append` takes its `msg.empty()`
branch and records `qualified_name` alone. -/
theorem C7_counterexample :
    ((error_log.mk0 "a").append_if "" true).log = ["a"]
      ∧ ("a" : String) ≠ "a" ++ "::" ++ "" := by
  refine ⟨rfl, by decide⟩

/-- Claim C7, amended: `append_if(msg, false)` is a no-op (identical log,
same size and contents); `append_if(msg, true)` adds exactly one message,
equal to `qualified_name + "::" + msg` when `msg` is non-empty and to
`qualified_name` alone when `msg` is empty. -/
theorem C7_append_if_spec (l : error_log) (msg : String) :
    l.append_if msg false = l
      ∧ (l.append_if msg true).log = l.log ++
          [if msg.isEmpty then l.qualifying_name
           else l.qualifying_name ++ "::" ++ msg]
      ∧ (l.append_if msg true).size = l.size + 1 := by
  refine ⟨rfl, ?_, ?_⟩
  · show (l.append msg).log = _
    exact append_log l msg
  · show (l.append msg).size = _
    unfold error_log.size
    rw [append_log]
    simp

theorem recorded_shape (q msg : String) :
    recorded q msg = q ∨ ∃ d, d ≠ "" ∧ recorded q msg = q ++ "::" ++ d := by
  unfold recorded
  by_cases h : msg.isEmpty
  · left
    rw [if_pos h]
  · right
    refine ⟨msg, ?_, by rw [if_neg h]⟩
    intro hmsg
    exact h (String.isEmpty_iff msg |>.mpr hmsg)

theorem mem_op_msgs (q m : String) (op : log_op) (h : m ∈ op_msgs q op) :
    ∃ msg, m = recorded q msg := by
  cases op with
  | append msg =>
      simp only [op_msgs, List.mem_singleton] at h
      exact ⟨msg, h⟩
  | append0 =>
      simp only [op_msgs, List.mem_singleton] at h
      exact ⟨"", by rw [h]; rfl⟩
  | append_if msg fail =>
      cases fail with
      | false => simp [op_msgs] at h
      | true =>
          simp only [op_msgs, if_pos, List.mem_singleton] at h
          exact ⟨msg, h⟩
  | append_if0 fail =>
      cases fail with
      | false => simp [op_msgs] at h
      | true =>
          simp only [op_msgs, if_pos, List.mem_singleton] at h
          exact ⟨"", by rw [h]; rfl⟩
  | incorporate other =>
      simp only [op_msgs, List.mem_map] at h
      obtain ⟨x, _, hx⟩ := h
      exact ⟨x, hx.symm⟩

/-- Claim C6: starting from a freshly constructed log, after any sequence of
`append`, `append_if` and `incorporate` calls, every stored message either
equals the qualifying name exactly or equals
`qualifying_name ++ "::" ++ detail` for some non-empty `detail`. -/
theorem C6_message_invariant (name : String) (ops : List log_op)
    (m : String) (h : m ∈ (run_ops (error_log.mk0 name) ops).log) :
    m = name ∨ ∃ d, d ≠ "" ∧ m = name ++ "::" ++ d := by
  rw [run_ops_log] at h
  simp only [error_log.mk0, List.nil_append, ops_msgs, List.mem_flatten,
    List.mem_map] at h
  obtain ⟨block, ⟨op, _, hop⟩, hm⟩ := h
  subst hop
  obtain ⟨msg, hmsg⟩ := mem_op_msgs name m op hm
  subst hmsg
  exact recorded_shape name msg

/-- Witness for C6 at a concrete log and call sequence. -/
theorem C6_message_invariant_witness :
    ("test::1" ∈ (run_ops (error_log.mk0 "test") [.append "1"]).log)
      ∧ ("test::1" = "test"
          ∨ ∃ d, d ≠ "" ∧ "test::1" = "test" ++ "::" ++ d) :=
  ⟨by decide, C6_message_invariant "test" [.append "1"] "test::1" (by decide)⟩

/- ### Claims about the test-suite hierarchy -/

theorem run_test_simple (e : error_log) (test : List log_op) :
    run_test (.simple_test e test) = .simple_test (run_ops e test) test := by
  rw [run_test]

theorem run_test_compound (e : error_log) (cs : List test_suite) :
    run_test (.compound_test e cs) =
      .compound_test (collect_errors_list e cs).1
        (collect_errors_list e cs).2 := by
  rw [run_test]

/-- Claim C3: running a group runs every child (the resulting components
are exactly the children, each run, in declared order) and the own log of
the group becomes its previous contents followed by one contiguous block
per child, blocks in declaration order, where the block of child `c` is
the post-run message list of `c`, each message re-prefixed with the
qualified name of the group
(an already-prefixed message `m` becomes `name ++ "::" ++ m`). -/
theorem C3_group_run_blocks (e : error_log) (cs : List test_suite) :
    run_test (.compound_test e cs) =
      .compound_test
        ⟨e.qualifying_name,
         e.log ++ (cs.map fun c =>
           (run_test c).errors.log.map (recorded e.qualifying_name)).flatten⟩
        (cs.map run_test) := by
  rw [run_test_compound, collect_errors_list_snd]
  exact congrArg (fun x => test_suite.compound_test x (cs.map run_test))
    (error_log_eq_mk _ _ _ (collect_errors_list_fst_name e cs)
      (collect_errors_list_fst_log e cs))

/-- Claim C4, counterexample: for a group of one always-failing leaf, one
run yields `error_count() = 1` but a second run yields `3`, not `2`:
`collect_errors` re-incorporates the whole accumulated child log (both
batches) on the second run. -/
theorem C4_counterexample :
    (run_test (create_test (.group "g" [.leaf "a" [.append0]]))).error_count = 1
      ∧ (run_test (run_test
          (create_test (.group "g" [.leaf "a" [.append0]])))).error_count = 3
      ∧ (3 : Nat) ≠ 2 * 1 := by
  refine ⟨rfl, rfl, by decide⟩

/-- Claim C4, amended: for every `LeafTest` whose first `run()` recorded a
strictly positive `error_count`, a second `run()` appends a second batch
of the same messages on top of the first, and `error_count()` after the
second run equals exactly twice the single-run count.  (For a group the
second run appends strictly more: the whole accumulated log of each child is
re-incorporated, e.g. `3` instead of `2` for a group of one failing
leaf.) -/
theorem C4_leaf_run_twice_doubles (name : String) (test : List log_op)
    (_hpos : 0 < (run_test (create_test (.leaf name test))).error_count) :
    (run_test (run_test (create_test (.leaf name test)))).errors.log =
        (run_test (create_test (.leaf name test))).errors.log
          ++ ops_msgs name test
      ∧ (run_test (run_test (create_test (.leaf name test)))).error_count =
        2 * (run_test (create_test (.leaf name test))).error_count := by
  show (run_test (run_test (.simple_test (error_log.mk0 name) test))).errors.log
      = _ ∧ _
  rw [run_test_simple, run_test_simple]
  constructor
  · show (run_ops (run_ops (error_log.mk0 name) test) test).log = _
    rw [run_ops_log (run_ops (error_log.mk0 name) test) test,
      run_ops_name]
    rfl
  · show (run_ops (run_ops (error_log.mk0 name) test) test).size =
      2 * (run_ops (error_log.mk0 name) test).size
    rw [run_ops_size, run_ops_size]
    show 0 + ops_count test + ops_count test = 2 * (0 + ops_count test)
    ring

/-- Witness for the amended claim C4: a leaf that appends one message per
run has count 1 after one run and 2 after two runs. -/
theorem C4_leaf_run_twice_doubles_witness :
    0 < (run_test (create_test (.leaf "a" [.append0]))).error_count
      ∧ ((run_test (run_test (create_test (.leaf "a" [.append0])))).errors.log =
          (run_test (create_test (.leaf "a" [.append0]))).errors.log
            ++ ops_msgs "a" [.append0]
        ∧ (run_test (run_test (create_test (.leaf "a" [.append0])))).error_count =
          2 * (run_test (create_test (.leaf "a" [.append0]))).error_count) :=
  ⟨by decide, C4_leaf_run_twice_doubles "a" [.append0] (by decide)⟩

mutual
/-- Running a freshly built tree leaves exactly one message per
descendant-leaf append in the root log. -/
theorem run_create_size :
    ∀ s : test_spec,
      (run_test (create_test s)).errors.size = total_leaf_count s
  | .leaf name test => by
      rw [create_test, run_test_simple]
      show (run_ops (error_log.mk0 name) test).size = _
      rw [run_ops_size, total_leaf_count]
      simp [error_log.mk0, error_log.size]
  | .group name children => by
      rw [create_test, run_test_compound]
      show (collect_errors_list (error_log.mk0 name)
        (create_test_list children)).1.log.length = _
      rw [collect_errors_list_fst_log]
      simp only [error_log.mk0, List.nil_append, List.length_flatten,
        List.map_map, Function.comp_def, List.length_map]
      rw [run_create_size_list children, total_leaf_count]

/-- List form of `run_create_size` over the children of a group. -/
theorem run_create_size_list :
    ∀ cs : List test_spec,
      ((create_test_list cs).map
          (fun c => (run_test c).errors.log.length)).sum =
        total_leaf_count_list cs
  | [] => rfl
  | c :: cs => by
      rw [create_test_list, List.map_cons, List.sum_cons]
      have h1 : (run_test (create_test c)).errors.log.length =
          total_leaf_count c := run_create_size c
      rw [h1, run_create_size_list cs]
      rfl
end

/-- Claim C5: `error_count()` of any node always equals the number of
messages currently in its own log (it is defined as `errors_.size()`);
and running a freshly constructed group yields an `error_count` equal to
the total number of messages recorded by its descendant leaves during
that run. -/
theorem C5_error_count_invariant :
    (∀ t : test_suite, t.error_count = t.errors.log.length)
      ∧ ∀ (name : String) (children : List test_spec),
          (run_test (create_test (.group name children))).error_count =
            total_leaf_count_list children := by
  refine ⟨fun t => rfl, fun name children => ?_⟩
  exact run_create_size (.group name children)

/- ### Fault propagation -/

theorem run_eops_ops_first (e : error_log) (pre : List log_op)
    (rest : List elog_op) :
    run_eops e (pre.map elog_op.op ++ rest) = run_eops (run_ops e pre) rest := by
  induction pre generalizing e with
  | nil => rfl
  | cons op pre ih =>
      rw [List.map_cons, List.cons_append, run_eops, ih]
      rfl

theorem ecollect_fault (t : etest_suite) (f : String)
    (ht : erun_test t = .error f) (after : List etest_suite) :
    ∀ (before : List etest_suite) (e : error_log),
      (∀ b ∈ before, ∃ b', erun_test b = .ok b') →
      ecollect_errors_list e (before ++ t :: after) = .error f := by
  intro before
  induction before with
  | nil =>
      intro e _
      rw [List.nil_append, ecollect_errors_list, ht]
  | cons b bs ih =>
      intro e hok
      obtain ⟨b', hb'⟩ := hok b (List.mem_cons_self b bs)
      rw [List.cons_append, ecollect_errors_list, hb']
      dsimp only
      rw [ih _ (fun x hx => hok x (List.mem_cons_of_mem b hx))]

/-- Claim C8: the harness has no handler: (i) a leaf whose procedure makes
some log calls and then raises fault `f` yields `f` itself from
`run_test`, with nothing appended to any log as a result of the fault;
(ii) if every child before position `k` of a group runs without fault and
the child at `k` faults with `f`, the `run_test` of the group yields exactly
`f` — the fault escapes `collect_errors` and every enclosing `run_test`
unchanged, never converted into a recorded failure message. -/
theorem C8_fault_propagation :
    (∀ (e : error_log) (pre : List log_op) (f : String) (rest : List elog_op),
        erun_test (.simple_test e
          (pre.map elog_op.op ++ .throwFault f :: rest)) = .error f)
      ∧ ∀ (e : error_log) (before : List etest_suite) (t : etest_suite)
          (after : List etest_suite) (f : String),
          (∀ b ∈ before, ∃ b', erun_test b = .ok b') →
          erun_test t = .error f →
          erun_test (.compound_test e (before ++ t :: after)) = .error f := by
  constructor
  · intro e pre f rest
    rw [erun_test, run_eops_ops_first]
    rfl
  · intro e before t after f hok ht
    rw [erun_test, ecollect_fault t f ht after before e hok]

/-- Witness for C8: a leaf raising `"boom"` propagates it through its
own `run_test` and through the `run_test` of an enclosing group. -/
theorem C8_fault_propagation_witness :
    (∀ b ∈ ([] : List etest_suite), ∃ b', erun_test b = .ok b')
      ∧ erun_test (.simple_test (error_log.mk0 "a") [.throwFault "boom"]) =
          .error "boom"
      ∧ erun_test (.compound_test (error_log.mk0 "g")
          [.simple_test (error_log.mk0 "a") [.throwFault "boom"]]) =
          .error "boom" := by
  have h := C8_fault_propagation
  have hleaf := h.1 (error_log.mk0 "a") [] "boom" []
  exact ⟨fun b hb => absurd hb (List.not_mem_nil b),
    hleaf,
    h.2 (error_log.mk0 "g") []
      (.simple_test (error_log.mk0 "a") [.throwFault "boom"]) [] "boom"
      (fun b hb => absurd hb (List.not_mem_nil b)) hleaf⟩

/- ### Shared child handles -/

/-- Claim C9: one leaf (id 0) is held by two groups (ids 1 and 2) through a
shared handle; its procedure appends exactly one message per run.
Running group 1 and then group 2 sequentially: group 1 incorporates one
message from the child, the own log of the shared child has accumulated to
two messages after the run of group 2, group 2 therefore incorporates two,
and the log of group 1 still holds the single message it absorbed. -/
theorem C9_shared_child (cname g1name g2name : String) (test : List log_op)
    (h : ops_count test = 1) :
    (log_at (run_node
        [hnode.simple test, hnode.compound [0], hnode.compound [0]] 2 1
        [error_log.mk0 cname, error_log.mk0 g1name, error_log.mk0 g2name])
        1).size = 1
      ∧ (log_at (run_node
          [hnode.simple test, hnode.compound [0], hnode.compound [0]] 2 2
          (run_node
            [hnode.simple test, hnode.compound [0], hnode.compound [0]] 2 1
            [error_log.mk0 cname, error_log.mk0 g1name,
             error_log.mk0 g2name])) 0).size = 2
      ∧ (log_at (run_node
          [hnode.simple test, hnode.compound [0], hnode.compound [0]] 2 2
          (run_node
            [hnode.simple test, hnode.compound [0], hnode.compound [0]] 2 1
            [error_log.mk0 cname, error_log.mk0 g1name,
             error_log.mk0 g2name])) 2).size = 2
      ∧ (log_at (run_node
          [hnode.simple test, hnode.compound [0], hnode.compound [0]] 2 2
          (run_node
            [hnode.simple test, hnode.compound [0], hnode.compound [0]] 2 1
            [error_log.mk0 cname, error_log.mk0 g1name,
             error_log.mk0 g2name])) 1).size = 1 := by
  have hs1 : run_node
      [hnode.simple test, hnode.compound [0], hnode.compound [0]] 2 1
      [error_log.mk0 cname, error_log.mk0 g1name, error_log.mk0 g2name] =
      [run_ops (error_log.mk0 cname) test,
       (error_log.mk0 g1name).incorporate (run_ops (error_log.mk0 cname) test),
       error_log.mk0 g2name] := rfl
  have hs2 : run_node
      [hnode.simple test, hnode.compound [0], hnode.compound [0]] 2 2
      [run_ops (error_log.mk0 cname) test,
       (error_log.mk0 g1name).incorporate (run_ops (error_log.mk0 cname) test),
       error_log.mk0 g2name] =
      [run_ops (run_ops (error_log.mk0 cname) test) test,
       (error_log.mk0 g1name).incorporate (run_ops (error_log.mk0 cname) test),
       (error_log.mk0 g2name).incorporate
         (run_ops (run_ops (error_log.mk0 cname) test) test)] := rfl
  rw [hs1, hs2]
  have hmk : ∀ n : String, (error_log.mk0 n).size = 0 := fun _ => rfl
  refine ⟨?_, ?_, ?_, ?_⟩
  · show ((error_log.mk0 g1name).incorporate
      (run_ops (error_log.mk0 cname) test)).size = 1
    rw [incorporate_size, run_ops_size, h, hmk, hmk]
  · show (run_ops (run_ops (error_log.mk0 cname) test) test).size = 2
    rw [run_ops_size, run_ops_size, h, hmk]
  · show ((error_log.mk0 g2name).incorporate
      (run_ops (run_ops (error_log.mk0 cname) test) test)).size = 2
    rw [incorporate_size, run_ops_size, run_ops_size, h, hmk, hmk]
  · show ((error_log.mk0 g1name).incorporate
      (run_ops (error_log.mk0 cname) test)).size = 1
    rw [incorporate_size, run_ops_size, h, hmk, hmk]

/-- Witness for C9: the child procedure is the single call `append()`. -/
theorem C9_shared_child_witness :
    ops_count [log_op.append0] = 1
      ∧ ((log_at (run_node
          [hnode.simple [log_op.append0], hnode.compound [0],
           hnode.compound [0]] 2 1
          [error_log.mk0 "c", error_log.mk0 "g1", error_log.mk0 "g2"])
          1).size = 1
        ∧ (log_at (run_node
            [hnode.simple [log_op.append0], hnode.compound [0],
             hnode.compound [0]] 2 2
            (run_node
              [hnode.simple [log_op.append0], hnode.compound [0],
               hnode.compound [0]] 2 1
              [error_log.mk0 "c", error_log.mk0 "g1",
               error_log.mk0 "g2"])) 0).size = 2
        ∧ (log_at (run_node
            [hnode.simple [log_op.append0], hnode.compound [0],
             hnode.compound [0]] 2 2
            (run_node
              [hnode.simple [log_op.append0], hnode.compound [0],
               hnode.compound [0]] 2 1
              [error_log.mk0 "c", error_log.mk0 "g1",
               error_log.mk0 "g2"])) 2).size = 2
        ∧ (log_at (run_node
            [hnode.simple [log_op.append0], hnode.compound [0],
             hnode.compound [0]] 2 2
            (run_node
              [hnode.simple [log_op.append0], hnode.compound [0],
               hnode.compound [0]] 2 1
              [error_log.mk0 "c", error_log.mk0 "g1",
               error_log.mk0 "g2"])) 1).size = 1) :=
  ⟨by decide, C9_shared_child "c" "g1" "g2" [log_op.append0] (by decide)⟩

end Ttest
